import Mathlib

/-!
Verification of the UnipolMove API client (`unipolmove_client.py`).

The Python source is shallowly embedded: dictionaries become
insertion-ordered association lists over a JSON-like value type, Python
dates become explicit year/month/day triples, HTTP traffic is abstracted
as response values supplied by the caller, and Python exceptions become
`Except` results.  Reference semantics of dict mutation (needed for the
no-mutation claims about `generate_pdf_report`) is modelled by an explicit
heap of dict cells.
-/

/-- JSON-like values stored in a movement record, as far as the client
inspects them: strings, booleans, integers and `null` (Python `None`). -/
inductive JVal where
  | str (s : String)
  | bool (b : Bool)
  | int (n : Int)
  | null
  deriving DecidableEq, Repr

/-- Python truthiness of a `JVal` (used by `x or y` and `if s:`). -/
def JVal.truthy : JVal → Bool
  | .str s => s != ""
  | .bool b => b
  | .int n => n != 0
  | .null => false

/-- A Python `dict` with string keys, as an insertion-ordered association
list (first binding for a key is the authoritative one; `dset` never
creates a duplicate). -/
abbrev Dict := List (String × JVal)

/-- Python `d.get(k)`: `none` when the key is missing. -/
def dget (d : Dict) (k : String) : Option JVal :=
  (d.find? (fun p => p.1 == k)).map (fun p => p.2)

/-- Python `d[k] = v`: overwrite the value in place when the key exists
(keeping its position), otherwise append the new binding at the end. -/
def dset (d : Dict) (k : String) (v : JVal) : Dict :=
  if d.any (fun p => p.1 == k) then
    d.map (fun p => if p.1 == k then (k, v) else p)
  else
    d ++ [(k, v)]

/-- A Python `datetime.date`: year, month, day.  Comparison of valid
dates is lexicographic on the triple. -/
structure PyDate where
  year : Nat
  month : Nat
  day : Nat
  deriving DecidableEq, Repr

/-- Python `date.__le__`: lexicographic on (year, month, day). -/
def PyDate.le (a b : PyDate) : Bool :=
  Nat.blt a.year b.year ||
    (a.year == b.year &&
      (Nat.blt a.month b.month ||
        (a.month == b.month && Nat.ble a.day b.day)))

/-- Days in a month of the proleptic Gregorian calendar (the calendar of
`datetime.date`). -/
def daysInMonth (y m : Nat) : Nat :=
  if m == 2 then
    if (y % 4 == 0 && y % 100 != 0) || y % 400 == 0 then 29 else 28
  else if m == 4 || m == 6 || m == 9 || m == 11 then 30
  else 31

/-- Build a `date` when the components form a valid calendar date;
`datetime.date` raises `ValueError` otherwise, modelled as `none`. -/
def mkDate (y m d : Nat) : Option PyDate :=
  if 1 ≤ y ∧ y ≤ 9999 ∧ 1 ≤ m ∧ m ≤ 12 ∧ 1 ≤ d ∧ d ≤ daysInMonth y m then
    some ⟨y, m, d⟩
  else none

/-- Python `s.split(sep)` for a one-character separator, on the
character list of the string (all separators the source uses are one
character wide). -/
def splitOnChar (c : Char) : List Char → List (List Char)
  | [] => [[]]
  | x :: xs =>
    match splitOnChar c xs with
    | [] => [[]]
    | r :: rs => if x == c then [] :: r :: rs else (x :: r) :: rs

/-- Python `s.replace("Z", "+00:00")` on the character list. -/
def replaceZ : List Char → List Char
  | [] => []
  | c :: cs =>
    if c == 'Z' then '+' :: '0' :: '0' :: ':' :: '0' :: '0' :: replaceZ cs
    else c :: replaceZ cs

/-- Python `c in s` for a one-character needle. -/
def containsChar (cs : List Char) (c : Char) : Bool :=
  cs.any (fun x => x == c)

/-- A non-empty run of ASCII digits. -/
def allDigits (cs : List Char) : Bool :=
  cs.length != 0 && cs.all (fun c => c.isDigit)

/-- Numeric value of a digit run. -/
def digitsVal (cs : List Char) : Nat :=
  cs.foldl (fun n c => n * 10 + (c.toNat - 48)) 0

/-- Models `datetime.strptime(s, "%Y-%m-%d").date()`: a year of 1-4
digits, month and day of 1-2 digits, separated by `-`, validated as a
calendar date; any other input raises `ValueError`, here `none`. -/
def strptimeYMD (cs : List Char) : Option PyDate :=
  match splitOnChar '-' cs with
  | [ys, ms, ds] =>
    if allDigits ys ∧ ys.length ≤ 4 ∧ allDigits ms ∧ ms.length ≤ 2 ∧
        allDigits ds ∧ ds.length ≤ 2 then
      mkDate (digitsVal ys) (digitsVal ms) (digitsVal ds)
    else none
  | _ => none

/-- The strict `YYYY-MM-DD` date part accepted by `fromisoformat`. -/
def isoDateYMD (cs : List Char) : Option PyDate :=
  match splitOnChar '-' cs with
  | [ys, ms, ds] =>
    if allDigits ys ∧ ys.length = 4 ∧ allDigits ms ∧ ms.length = 2 ∧
        allDigits ds ∧ ds.length = 2 then
      mkDate (digitsVal ys) (digitsVal ms) (digitsVal ds)
    else none
  | _ => none

/-- A two-digit field whose value is at most `hi`. -/
def twoDigitMax (cs : List Char) (hi : Nat) : Bool :=
  allDigits cs && cs.length == 2 && Nat.ble (digitsVal cs) hi

/-- A fractional-seconds field of 1-6 digits. -/
def isoFraction (cs : List Char) : Bool :=
  allDigits cs && Nat.ble 1 cs.length && Nat.ble cs.length 6

/-- Seconds field: `SS` optionally followed by `.ffffff` or `,ffffff`. -/
def isoSeconds (cs : List Char) : Bool :=
  if containsChar cs '.' then
    match splitOnChar '.' cs with
    | [ss, fs] => twoDigitMax ss 59 && isoFraction fs
    | _ => false
  else if containsChar cs ',' then
    match splitOnChar ',' cs with
    | [ss, fs] => twoDigitMax ss 59 && isoFraction fs
    | _ => false
  else twoDigitMax cs 59

/-- Clock part of an ISO timestamp: `HH`, `HH:MM` or `HH:MM:SS[.f]`. -/
def isoTimeBase (t : List Char) : Bool :=
  match splitOnChar ':' t with
  | [h] => twoDigitMax h 23
  | [h, m] => twoDigitMax h 23 && twoDigitMax m 59
  | [h, m, s] => twoDigitMax h 23 && twoDigitMax m 59 && isoSeconds s
  | _ => false

/-- A UTC-offset body `HH:MM` (the sign has already been split off). -/
def isoOffset (o : List Char) : Bool :=
  match splitOnChar ':' o with
  | [oh, om] => twoDigitMax oh 23 && twoDigitMax om 59
  | _ => false

/-- Time-of-day part of an ISO timestamp with an optional `+HH:MM` or
`-HH:MM` offset. -/
def isoTimeValid (t : List Char) : Bool :=
  if containsChar t '+' then
    match splitOnChar '+' t with
    | [base, off] => isoTimeBase base && isoOffset off
    | _ => false
  else if containsChar t '-' then
    match splitOnChar '-' t with
    | [base, off] => isoTimeBase base && isoOffset off
    | _ => false
  else isoTimeBase t

/-- Models `datetime.fromisoformat(s).date()` for the extended-format
timestamps the service sends: `YYYY-MM-DD` then `T` then a valid time
with an optional `±HH:MM` offset (the caller has already replaced `Z`
with `+00:00`).  `.date()` keeps the calendar fields unchanged — no
timezone conversion — so the result is the date component.  Any other
input raises `ValueError`, here `none`. -/
def fromisoformatDate (cs : List Char) : Option PyDate :=
  match splitOnChar 'T' cs with
  | [d, t] =>
    match isoDateYMD d with
    | some dt => if isoTimeValid t then some dt else none
    | none => none
  | _ => none

/-- The date-parsing block of `filter_movements_by_date`: strings
containing `"T"` go through `fromisoformat` after every `Z` is rewritten
to `+00:00`, all others through `strptime` with format `%Y-%m-%d`; in
both cases `.date()` is taken. -/
def parseMovementDate (s : String) : Option PyDate :=
  if containsChar s.data 'T' then fromisoformatDate (replaceZ s.data)
  else strptimeYMD s.data

/-- Python exceptions that can escape the embedded code paths. -/
inductive PyErr where
  | typeError
  | httpError
  deriving DecidableEq, Repr

/-- `movement.get("dataIngresso") or movement.get("dataUscita", "")`:
the entry-date value when present and truthy, otherwise the exit-date
value, defaulting to the empty string. -/
def resolveDateVal (m : Dict) : JVal :=
  match dget m "dataIngresso" with
  | some v => if v.truthy then v else (dget m "dataUscita").getD (JVal.str "")
  | none => (dget m "dataUscita").getD (JVal.str "")

/-- One iteration body of the filtering loop: `.ok true` keeps the
record, `.ok false` drops it (falsy date value, or a parse `ValueError`,
which the source catches together with `AttributeError`), and
`.error .typeError` models the uncaught `TypeError` raised by
`"T" in x` / `strptime` when the resolved date value is truthy but not a
string. -/
def filterStep (s e : PyDate) (m : Dict) : Except PyErr Bool :=
  let v := resolveDateVal m
  if v.truthy then
    match v with
    | .str ds =>
      match parseMovementDate ds with
      | some d => .ok (PyDate.le s d && PyDate.le d e)
      | none => .ok false
    | _ => .error .typeError
  else .ok false

/-- `filter_movements_by_date`: keeps, in input order, the records whose
resolved date parses and lies in the inclusive range; an uncaught
exception aborts the whole call. -/
def filter_movements_by_date (s e : PyDate) : List Dict → Except PyErr (List Dict)
  | [] => .ok []
  | m :: rest =>
    match filterStep s e m with
    | .error err => .error err
    | .ok true => (filter_movements_by_date s e rest).map (fun l => m :: l)
    | .ok false => filter_movements_by_date s e rest

/-- The resolved parsed date of a record under the source's fallback rule
(entry date if present and truthy, else exit date), `none` when the
resolved value is a falsy or unparseable string.  Non-string truthy
values are outside this predicate (the source raises on them). -/
def resolvedDate (m : Dict) : Option PyDate :=
  match resolveDateVal m with
  | .str s => if s != "" then parseMovementDate s else none
  | _ => none

/-- Keep-predicate of the filtering step for records that do not raise:
the resolved date parses and lies in the inclusive range. -/
def amendedKeep (s e : PyDate) (m : Dict) : Bool :=
  match resolvedDate m with
  | some d => PyDate.le s d && PyDate.le d e
  | none => false

/-- Records on which the filtering step cannot raise: the resolved date
value is either a string or falsy. -/
def strOrFalsy : JVal → Bool
  | .str _ => true
  | .bool b => !b
  | .int n => n == 0
  | .null => true

/-- Parse a date field value the way claim C1 reads it (only strings
parse). -/
def claimParseVal : Option JVal → Option PyDate
  | some (.str s) => parseMovementDate s
  | _ => none

/-- The resolution rule exactly as claim C1 words it: the entry date
field, falling back to the exit date field only when entry is absent
(key missing or `None`). -/
def claimResolvedDate (m : Dict) : Option PyDate :=
  match dget m "dataIngresso" with
  | none => claimParseVal (dget m "dataUscita")
  | some .null => claimParseVal (dget m "dataUscita")
  | some v => claimParseVal (some v)

/-- Keep-predicate of claim C1 as stated. -/
def claimKeep (s e : PyDate) (m : Dict) : Bool :=
  match claimResolvedDate m with
  | some d => PyDate.le s d && PyDate.le d e
  | none => false


lemma PyDate.le_refl (d : PyDate) : PyDate.le d d = true := by
  simp [PyDate.le, Nat.ble_eq]

lemma filterStep_ok_eq (s e : PyDate) (m : Dict) (b : Bool)
    (h : filterStep s e m = .ok b) : b = amendedKeep s e m := by
  rcases hv : resolveDateVal m with ds | b' | n | _ <;>
    simp only [filterStep, amendedKeep, resolvedDate, hv, JVal.truthy] at h ⊢
  · rcases hds : (ds != "") <;> simp only [hds] at h ⊢
    · simp_all
    · rcases hp : parseMovementDate ds <;> simp_all
  · rcases b' <;> simp_all
  · rcases hn : (n != (0 : Int)) <;> simp only [hn] at h ⊢ <;> simp_all
  · simp_all

lemma filterStep_eq_of_strOrFalsy (s e : PyDate) (m : Dict)
    (h : strOrFalsy (resolveDateVal m) = true) :
    filterStep s e m = .ok (amendedKeep s e m) := by
  rcases hv : resolveDateVal m with ds | b' | n | _ <;>
    rw [hv] at h <;> simp only [strOrFalsy] at h <;>
    simp only [filterStep, amendedKeep, resolvedDate, hv, JVal.truthy]
  · rcases hds : (ds != "")
    · simp
    · rcases hp : parseMovementDate ds <;> simp [hp]
  · simp_all
  · simp_all
  · simp

lemma filter_ok_eq (s e : PyDate) (movs : List Dict) :
    ∀ l, filter_movements_by_date s e movs = .ok l →
      l = movs.filter (amendedKeep s e) := by
  induction movs with
  | nil =>
    intro l h
    simp [filter_movements_by_date] at h
    subst h
    simp
  | cons m rest ih =>
    intro l h
    simp only [filter_movements_by_date] at h
    rcases hstep : filterStep s e m with err | b <;> rw [hstep] at h
    · simp at h
    · have hb := (filterStep_ok_eq s e m b hstep).symm
      rcases b with _ | _
      · rw [List.filter_cons, if_neg (by simp [← hb])]
        exact ih l h
      · rcases hr : filter_movements_by_date s e rest with err2 | l2 <;>
          rw [hr] at h
        · simp [Except.map] at h
        · simp [Except.map] at h
          rw [List.filter_cons, if_pos hb, ← h, ih l2 hr]

lemma filter_ok_of_all (s e : PyDate) :
    ∀ movs : List Dict, (∀ m ∈ movs, strOrFalsy (resolveDateVal m) = true) →
      filter_movements_by_date s e movs = .ok (movs.filter (amendedKeep s e)) := by
  intro movs
  induction movs with
  | nil =>
    intro _
    simp [filter_movements_by_date]
  | cons m rest ih =>
    intro h
    have hm := h m (by simp)
    have hrest : ∀ x ∈ rest, strOrFalsy (resolveDateVal x) = true :=
      fun x hx => h x (by simp [hx])
    simp only [filter_movements_by_date, filterStep_eq_of_strOrFalsy s e m hm]
    rcases hk : amendedKeep s e m <;>
      simp [List.filter_cons, hk, ih hrest, Except.map]

/-- Records from the worked example in the spec (section 8). -/
def exMov1 : Dict := [("dataIngresso", JVal.str "2024-03-05"), ("saldo", JVal.str "2.50")]

/-- Second record of the spec's worked example. -/
def exMov2 : Dict := [("dataIngresso", JVal.str "2024-04-01"), ("saldo", JVal.str "1.10")]

/-- C1 (counterexample to the claim as stated): the claim resolves the
date of a record to its entry field whenever that field is present,
falling back to the exit field only when entry is absent.  On a record
whose `dataIngresso` is the (present, but empty) string `""` and whose
`dataUscita` is `"2024-03-05"`, the claim therefore predicts exclusion
(the empty string does not parse), yet the source's `or`-fallback is on
truthiness, so the code falls back to the exit date and keeps the
record. -/
theorem c1_absent_fallback_counterexample :
    filter_movements_by_date ⟨2024, 3, 5⟩ ⟨2024, 3, 5⟩
        [[("dataIngresso", JVal.str ""), ("dataUscita", JVal.str "2024-03-05")]] =
      .ok [[("dataIngresso", JVal.str ""), ("dataUscita", JVal.str "2024-03-05")]] ∧
    claimKeep ⟨2024, 3, 5⟩ ⟨2024, 3, 5⟩
        [("dataIngresso", JVal.str ""), ("dataUscita", JVal.str "2024-03-05")] = false :=
  ⟨rfl, by decide⟩

/-- C1 (amended): whenever `filter_movements_by_date` returns, the result
is exactly the records whose resolved date — the entry date field,
falling back to the exit date field when entry is absent **or falsy**
(`None` or the empty string) — parses in one of the two accepted formats
and satisfies `start <= date <= end`; in particular (second conjunct)
records whose resolved date equals `start` or equals `end` are
included whenever the range is non-degenerate. -/
theorem c1_filter_range (s e : PyDate) (movs l : List Dict)
    (h : filter_movements_by_date s e movs = .ok l) :
    l = movs.filter (amendedKeep s e) ∧
    (PyDate.le s e = true →
      ∀ m ∈ movs, (resolvedDate m = some s ∨ resolvedDate m = some e) → m ∈ l) := by
  have heq := filter_ok_eq s e movs l h
  refine ⟨heq, ?_⟩
  intro hse m hm hres
  rw [heq]
  apply List.mem_filter.mpr
  refine ⟨hm, ?_⟩
  rcases hres with hres | hres <;>
    simp [amendedKeep, hres, PyDate.le_refl, hse]

/-- Witness for C1 at the spec's worked example: filtering the two-record
list with the range 2024-03-01 .. 2024-03-31 keeps exactly the first
record. -/
theorem c1_filter_range_witness :
    [exMov1] = List.filter (amendedKeep ⟨2024, 3, 1⟩ ⟨2024, 3, 31⟩) [exMov1, exMov2] ∧
    (PyDate.le ⟨2024, 3, 1⟩ ⟨2024, 3, 31⟩ = true →
      ∀ m ∈ [exMov1, exMov2],
        (resolvedDate m = some ⟨2024, 3, 1⟩ ∨ resolvedDate m = some ⟨2024, 3, 31⟩) →
          m ∈ [exMov1]) :=
  c1_filter_range ⟨2024, 3, 1⟩ ⟨2024, 3, 31⟩ [exMov1, exMov2] [exMov1] rfl

/-- C7 (counterexample to "never raises"): a record whose entry date
field holds the truthy non-string value `True` reaches `"T" in x`, which
raises `TypeError`; `TypeError` is not in the `except` clause
(`ValueError`, `AttributeError`), so `filter_movements_by_date`
propagates it instead of skipping the record. -/
theorem c7_typeerror_counterexample :
    filter_movements_by_date ⟨2024, 1, 1⟩ ⟨2024, 12, 31⟩
      [[("dataIngresso", JVal.bool true)]] = .error .typeError := rfl

/-- C7 (amended): provided every record's resolved date value is a string
or falsy — in particular for all service data, whose date fields are
strings — the filter never raises: a record whose date string parses in
neither accepted format is excluded (its keep-predicate is `false`) and
the remaining records are still processed. -/
theorem c7_no_raise (s e : PyDate) (movs : List Dict)
    (h : ∀ m ∈ movs, strOrFalsy (resolveDateVal m) = true) :
    filter_movements_by_date s e movs = .ok (movs.filter (amendedKeep s e)) :=
  filter_ok_of_all s e movs h

/-- Witness for C7: a list holding an unparseable string date and a good
record filters without an exception. -/
theorem c7_no_raise_witness :
    filter_movements_by_date ⟨2024, 1, 1⟩ ⟨2024, 12, 31⟩
        [[("dataIngresso", JVal.str "not-a-date")],
         [("dataIngresso", JVal.str "2024-03-07")]] =
      .ok (List.filter (amendedKeep ⟨2024, 1, 1⟩ ⟨2024, 12, 31⟩)
        [[("dataIngresso", JVal.str "not-a-date")],
         [("dataIngresso", JVal.str "2024-03-07")]]) :=
  c7_no_raise ⟨2024, 1, 1⟩ ⟨2024, 12, 31⟩
    [[("dataIngresso", JVal.str "not-a-date")],
     [("dataIngresso", JVal.str "2024-03-07")]] (by decide)

/-- C9: whenever `filter_movements_by_date` returns, its output is an
order-preserving subsequence of the input: every kept record is one of
the input records (the very same dictionary value, not a modified copy)
and kept records appear in input order. -/
theorem c9_filter_sublist (s e : PyDate) (movs l : List Dict)
    (h : filter_movements_by_date s e movs = .ok l) : List.Sublist l movs := by
  rw [filter_ok_eq s e movs l h]
  exact List.filter_sublist movs

/-- Witness for C9 on a concrete two-record list. -/
theorem c9_filter_sublist_witness :
    List.Sublist [[("dataUscita", JVal.str "2024-05-02")]]
      [[("dataUscita", JVal.str "2024-05-02")], [("dataUscita", JVal.str "2025-05-02")]] :=
  c9_filter_sublist ⟨2024, 1, 1⟩ ⟨2024, 12, 31⟩
    [[("dataUscita", JVal.str "2024-05-02")], [("dataUscita", JVal.str "2025-05-02")]]
    [[("dataUscita", JVal.str "2024-05-02")]] rfl

/-- The client session state (`self` of `UnipolMoveClient`): contract
identifier, the two session cookies, the generated session id, and the
two credential pairs extracted from the remote configuration at
construction. -/
structure ClientState where
  contract_id : String
  mrh_session : Option String
  last_mrh_session : Option String
  session_id : String
  movements_client_id : String
  movements_client_secret : String
  pdf_client_id : String
  pdf_client_secret : String
  deriving DecidableEq, Repr

/-- An HTTP response carrying raw bytes (the PDF endpoint). -/
structure BytesResponse where
  status : Nat
  content : List Nat
  deriving DecidableEq, Repr

/-- The JSON payload `{intestatario, listaMovimenti}` posted by
`generate_pdf_report`. -/
structure PdfRequest where
  intestatario : String
  listaMovimenti : List Dict
  deriving DecidableEq, Repr

/-- The loop of `generate_pdf_report` building the posted movement list:
for each input record, a shallow copy with `checked` set to `True` and
`id` set to `str(idx)`, where `idx` is the zero-based position in the
input list (the loop body, as a pure value transformation). -/
def movements_with_check (idx : Nat) : List Dict → List Dict
  | [] => []
  | m :: rest =>
    dset (dset m "checked" (JVal.bool true)) "id" (JVal.str (toString idx)) ::
      movements_with_check (idx + 1) rest

/-- `generate_pdf_report`: builds the payload from shallow copies of the
input records, posts it (transport abstracted as the supplied response),
raises on an HTTP error status and otherwise returns the raw response
bytes.  The client state is only read (credentials, cookies), never
written; writing the optional output file is an external side effect not
modelled here.  The posted request is returned alongside so that
theorems can speak about the payload. -/
def generate_pdf_report (st : ClientState) (movements : List Dict)
    (intestatario : String) (resp : BytesResponse) :
    PdfRequest × Except PyErr (ClientState × List Nat) :=
  (⟨intestatario, movements_with_check 0 movements⟩,
   if 400 ≤ resp.status then .error .httpError else .ok (st, resp.content))

/-- A heap of Python dict objects, used to give `generate_pdf_report`'s
loop its reference semantics (records are objects; `movement.copy()`
allocates, subscript assignment mutates in place). -/
structure Heap where
  cells : List Dict
  deriving DecidableEq, Repr

/-- Dereference an address (out-of-range addresses read as `{}`; they
never occur in well-formed runs). -/
def Heap.read (h : Heap) (a : Nat) : Dict :=
  h.cells.getD a []

/-- Allocate a fresh object holding `d`; returns the new heap and the
fresh address. -/
def Heap.alloc (h : Heap) (d : Dict) : Heap × Nat :=
  (⟨h.cells ++ [d]⟩, h.cells.length)

/-- Overwrite the object at an address. -/
def Heap.write (h : Heap) (a : Nat) (d : Dict) : Heap :=
  ⟨h.cells.set a d⟩

/-- Reference semantics of the payload-building loop of
`generate_pdf_report`: the input is a list of addresses of movement
records; each iteration allocates `movement.copy()` and the two
subscript assignments mutate only that copy.  Returns the final heap and
the addresses of the copies, in order. -/
def genPdfLoop (h : Heap) (idx : Nat) : List Nat → Heap × List Nat
  | [] => (h, [])
  | a :: rest =>
    let p := h.alloc (h.read a)
    let h2 := p.1.write p.2 (dset (p.1.read p.2) "checked" (JVal.bool true))
    let h3 := h2.write p.2 (dset (h2.read p.2) "id" (JVal.str (toString idx)))
    let r := genPdfLoop h3 (idx + 1) rest
    (r.1, p.2 :: r.2)

lemma Heap.length_write (h : Heap) (a : Nat) (d : Dict) :
    (h.write a d).cells.length = h.cells.length := by
  simp [Heap.write]

lemma Heap.length_alloc (h : Heap) (d : Dict) :
    (h.alloc d).1.cells.length = h.cells.length + 1 := by
  simp [Heap.alloc]

lemma Heap.read_alloc_lt (h : Heap) (d : Dict) (a : Nat)
    (ha : a < h.cells.length) : (h.alloc d).1.read a = h.read a := by
  simp [Heap.alloc, Heap.read, List.getD_eq_getElem?_getD]
  rw [List.getElem?_append]
  simp [ha]

lemma Heap.read_alloc_self (h : Heap) (d : Dict) :
    (h.alloc d).1.read h.cells.length = d := by
  simp [Heap.alloc, Heap.read, List.getD_eq_getElem?_getD]

lemma Heap.read_write_self (h : Heap) (a : Nat) (d : Dict)
    (ha : a < h.cells.length) : (h.write a d).read a = d := by
  simp [Heap.write, Heap.read, List.getD_eq_getElem?_getD]
  rw [List.getElem?_set_self ha]
  rfl

lemma Heap.read_write_ne (h : Heap) (a b : Nat) (d : Dict) (hne : a ≠ b) :
    (h.write a d).read b = h.read b := by
  simp [Heap.write, Heap.read, List.getD_eq_getElem?_getD]
  rw [List.getElem?_set_ne hne]

lemma genPdfLoop_length (addrs : List Nat) : ∀ (h : Heap) (idx : Nat),
    (genPdfLoop h idx addrs).1.cells.length = h.cells.length + addrs.length := by
  induction addrs with
  | nil => intro h idx; simp [genPdfLoop]
  | cons a rest ih =>
    intro h idx
    simp only [genPdfLoop]
    rw [ih]
    simp [Heap.length_write, Heap.length_alloc, List.length_cons]
    omega

lemma genPdfLoop_frame (addrs : List Nat) : ∀ (h : Heap) (idx a : Nat),
    a < h.cells.length → (genPdfLoop h idx addrs).1.read a = h.read a := by
  induction addrs with
  | nil => intro h idx a _; simp [genPdfLoop]
  | cons x rest ih =>
    intro h idx a ha
    simp only [genPdfLoop]
    rw [ih]
    · rw [Heap.read_write_ne, Heap.read_write_ne, Heap.read_alloc_lt h _ a ha]
      · simp [Heap.alloc]
        omega
      · simp [Heap.alloc]
        omega
    · simp [Heap.length_write, Heap.length_alloc]
      omega

lemma genPdfLoop_copies_length (addrs : List Nat) : ∀ (h : Heap) (idx : Nat),
    (genPdfLoop h idx addrs).2.length = addrs.length := by
  induction addrs with
  | nil => intro h idx; simp [genPdfLoop]
  | cons a rest ih =>
    intro h idx
    simp [genPdfLoop, ih]

lemma genPdfLoop_cons (h : Heap) (idx a : Nat) (rest : List Nat) :
    genPdfLoop h idx (a :: rest) =
      ((genPdfLoop
          ⟨h.cells ++ [dset (dset (h.read a) "checked" (JVal.bool true)) "id"
            (JVal.str (toString idx))]⟩ (idx + 1) rest).1,
       h.cells.length ::
        (genPdfLoop
          ⟨h.cells ++ [dset (dset (h.read a) "checked" (JVal.bool true)) "id"
            (JVal.str (toString idx))]⟩ (idx + 1) rest).2) := by
  have h1 : (h.alloc (h.read a)).1.read (h.alloc (h.read a)).2 = h.read a :=
    Heap.read_alloc_self h (h.read a)
  simp only [genPdfLoop, h1]
  have h2 : ((h.alloc (h.read a)).1.write (h.alloc (h.read a)).2
      (dset (h.read a) "checked" (JVal.bool true))) =
      ⟨h.cells ++ [dset (h.read a) "checked" (JVal.bool true)]⟩ := by
    simp [Heap.alloc, Heap.write]
  rw [h2]
  have h3 : Heap.read ⟨h.cells ++ [dset (h.read a) "checked" (JVal.bool true)]⟩
      (h.alloc (h.read a)).2 = dset (h.read a) "checked" (JVal.bool true) := by
    have h7 := Heap.read_alloc_self h (dset (h.read a) "checked" (JVal.bool true))
    simp [Heap.alloc] at h7 ⊢
    exact h7
  rw [h3]
  have h4 : Heap.write ⟨h.cells ++ [dset (h.read a) "checked" (JVal.bool true)]⟩
      (h.alloc (h.read a)).2
      (dset (dset (h.read a) "checked" (JVal.bool true)) "id" (JVal.str (toString idx))) =
      ⟨h.cells ++ [dset (dset (h.read a) "checked" (JVal.bool true)) "id"
        (JVal.str (toString idx))]⟩ := by
    simp [Heap.alloc, Heap.write]
  rw [h4]
  simp [Heap.alloc]

lemma genPdfLoop_copies (addrs : List Nat) : ∀ (h : Heap) (idx i : Nat),
    (∀ a ∈ addrs, a < h.cells.length) → i < addrs.length →
    (genPdfLoop h idx addrs).1.read ((genPdfLoop h idx addrs).2.getD i 0) =
      dset (dset (h.read (addrs.getD i 0)) "checked" (JVal.bool true)) "id"
        (JVal.str (toString (idx + i))) := by
  induction addrs with
  | nil =>
    intro h idx i _ hi
    simp at hi
  | cons a rest ih =>
    intro h idx i hin hi
    have ha : a < h.cells.length := hin a (by simp)
    rw [genPdfLoop_cons]
    rcases i with _ | i
    · simp only [List.getD_cons_zero, Nat.add_zero]
      rw [genPdfLoop_frame]
      · have h6 := Heap.read_alloc_self h
          (dset (dset (h.read a) "checked" (JVal.bool true)) "id" (JVal.str (toString idx)))
        simp [Heap.alloc] at h6
        rw [h6]
      · simp
    · simp only [List.getD_cons_succ]
      have hi2 : i < rest.length := by simp at hi; omega
      have harest : rest.getD i 0 ∈ rest := by
        rw [List.getD_eq_getElem?_getD, List.getElem?_eq_getElem hi2]
        simp only [Option.getD_some]
        exact List.getElem_mem hi2
      have hlt : rest.getD i 0 < h.cells.length := hin _ (List.mem_cons_of_mem a harest)
      rw [ih]
      · have hread : Heap.read
            ⟨h.cells ++ [dset (dset (h.read a) "checked" (JVal.bool true)) "id"
              (JVal.str (toString idx))]⟩ (rest.getD i 0) = h.read (rest.getD i 0) := by
          have h5 := Heap.read_alloc_lt h
            (dset (dset (h.read a) "checked" (JVal.bool true)) "id" (JVal.str (toString idx)))
            (rest.getD i 0) hlt
          simp only [Heap.alloc] at h5
          exact h5
        rw [hread]
        have harith : idx + 1 + i = idx + (i + 1) := by omega
        rw [harith]
      · intro x hx
        simp only [List.length_append, List.length_cons]
        have := hin x (List.mem_cons_of_mem a hx)
        omega
      · exact hi2

lemma dget_map_update (k : String) (v : JVal) :
    ∀ d : Dict, d.any (fun p => p.1 == k) = true →
      dget (d.map (fun p => if p.1 == k then (k, v) else p)) k = some v := by
  intro d
  induction d with
  | nil => intro h; simp at h
  | cons p ps ih =>
    intro h
    rcases hp : (p.1 == k) with _ | _
    · simp only [List.any_cons, hp, Bool.false_or] at h
      simp only [List.map_cons, hp, Bool.false_eq_true, if_false]
      simp only [dget, List.find?_cons, hp]
      exact ih h
    · simp only [List.map_cons, hp, if_true]
      simp [dget, List.find?_cons]

lemma dget_map_update_ne (k k2 : String) (v : JVal) (hne : k2 ≠ k) :
    ∀ d : Dict, dget (d.map (fun p => if p.1 == k then (k, v) else p)) k2 = dget d k2 := by
  intro d
  induction d with
  | nil => simp [dget]
  | cons p ps ih =>
    rcases hp : (p.1 == k) with _ | _
    · simp only [List.map_cons, hp, Bool.false_eq_true, if_false]
      simp only [dget, List.find?_cons] at ih ⊢
      rcases hp2 : (p.1 == k2) with _ | _
      · simp only [hp2]
        exact ih
      · simp [hp2]
    · have hpk : p.1 = k := by simpa using hp
      have hp2 : (p.1 == k2) = false := by
        rw [hpk]
        exact beq_eq_false_iff_ne.mpr (fun hk => hne hk.symm)
      have hk2 : (k == k2) = false :=
        beq_eq_false_iff_ne.mpr (fun hk => hne hk.symm)
      simp only [List.map_cons, hp, if_true]
      simp only [dget, List.find?_cons, hp2, hk2] at ih ⊢
      exact ih

lemma dget_append_single (k : String) (v : JVal) :
    ∀ d : Dict, d.any (fun p => p.1 == k) = false →
      dget (d ++ [(k, v)]) k = some v := by
  intro d
  induction d with
  | nil => simp [dget, List.find?_cons]
  | cons p ps ih =>
    intro h
    simp only [List.any_cons, Bool.or_eq_false_iff] at h
    simp only [List.cons_append, dget, List.find?_cons, h.1]
    exact ih h.2

lemma dget_append_single_ne (k k2 : String) (v : JVal) (hne : k2 ≠ k) :
    ∀ d : Dict, dget (d ++ [(k, v)]) k2 = dget d k2 := by
  intro d
  induction d with
  | nil =>
    have hk2 : (k == k2) = false :=
      beq_eq_false_iff_ne.mpr (fun hk => hne hk.symm)
    simp [dget, List.find?_cons, hk2]
  | cons p ps ih =>
    simp only [List.cons_append, dget, List.find?_cons] at ih ⊢
    rcases hp2 : (p.1 == k2) with _ | _
    · simp only [hp2]
      exact ih
    · simp [hp2]

/-- Setting a key makes `get` of that key return the new value. -/
lemma dget_dset_self (d : Dict) (k : String) (v : JVal) :
    dget (dset d k v) k = some v := by
  unfold dset
  rcases hany : d.any (fun p => p.1 == k) with _ | _
  · simp only [Bool.false_eq_true, if_false]
    exact dget_append_single k v d hany
  · simp only [if_true]
    exact dget_map_update k v d hany

/-- Setting a key leaves `get` of every other key unchanged. -/
lemma dget_dset_ne (d : Dict) (k k2 : String) (v : JVal) (hne : k2 ≠ k) :
    dget (dset d k v) k2 = dget d k2 := by
  unfold dset
  rcases hany : d.any (fun p => p.1 == k) with _ | _
  · simp only [Bool.false_eq_true, if_false]
    exact dget_append_single_ne k k2 v hne d
  · simp only [if_true]
    exact dget_map_update_ne k k2 v hne d

lemma movements_with_check_length : ∀ (movs : List Dict) (idx : Nat),
    (movements_with_check idx movs).length = movs.length := by
  intro movs
  induction movs with
  | nil => intro idx; simp [movements_with_check]
  | cons m rest ih => intro idx; simp [movements_with_check, ih]

lemma movements_with_check_getD : ∀ (movs : List Dict) (idx i : Nat),
    i < movs.length →
      (movements_with_check idx movs).getD i [] =
        dset (dset (movs.getD i []) "checked" (JVal.bool true)) "id"
          (JVal.str (toString (idx + i))) := by
  intro movs
  induction movs with
  | nil => intro idx i hi; simp at hi
  | cons m rest ih =>
    intro idx i hi
    rcases i with _ | i
    · simp [movements_with_check]
    · simp only [movements_with_check, List.getD_cons_succ]
      rw [ih (idx + 1) i (by simp only [List.length_cons] at hi; omega)]
      have harith : idx + 1 + i = idx + (i + 1) := by omega
      rw [harith]

/-- C4: the payload posted by `generate_pdf_report` holds exactly one
entry per input record; entry `i` is a shallow copy of input record `i`
with `checked` set to `True` and `id` set to the string form of the
zero-based input position `i` — so its `checked` and `id` fields have the
injected values and every other field reads exactly as in the input
record. -/
theorem c4_payload (st : ClientState) (movs : List Dict) (intestatario : String)
    (resp : BytesResponse) (i : Nat) (hi : i < movs.length) :
    (generate_pdf_report st movs intestatario resp).1.listaMovimenti.length = movs.length ∧
    (generate_pdf_report st movs intestatario resp).1.listaMovimenti.getD i [] =
      dset (dset (movs.getD i []) "checked" (JVal.bool true)) "id" (JVal.str (toString i)) ∧
    dget ((generate_pdf_report st movs intestatario resp).1.listaMovimenti.getD i []) "checked" =
      some (JVal.bool true) ∧
    dget ((generate_pdf_report st movs intestatario resp).1.listaMovimenti.getD i []) "id" =
      some (JVal.str (toString i)) ∧
    ∀ k2, k2 ≠ "checked" → k2 ≠ "id" →
      dget ((generate_pdf_report st movs intestatario resp).1.listaMovimenti.getD i []) k2 =
        dget (movs.getD i []) k2 := by
  have hlm : (generate_pdf_report st movs intestatario resp).1.listaMovimenti =
      movements_with_check 0 movs := rfl
  have hgetD := movements_with_check_getD movs 0 i hi
  rw [Nat.zero_add] at hgetD
  refine ⟨?_, ?_, ?_, ?_, ?_⟩
  · rw [hlm]; exact movements_with_check_length movs 0
  · rw [hlm, hgetD]
  · rw [hlm, hgetD, dget_dset_ne _ _ _ _ (by decide), dget_dset_self]
  · rw [hlm, hgetD, dget_dset_self]
  · intro k2 hk1 hk2
    rw [hlm, hgetD, dget_dset_ne _ _ _ _ hk2, dget_dset_ne _ _ _ _ hk1]

/-- A sample client session used by closed witnesses. -/
def sampleState : ClientState :=
  ⟨"P000000000", none, none, "sid-1", "mov-id", "mov-secret", "pdf-id", "pdf-secret"⟩

/-- Witness for C4 on a two-record list (the second record even carries a
pre-existing `id` field). -/
theorem c4_payload_witness :
    (generate_pdf_report sampleState
        [[("saldo", JVal.str "2.50")], [("id", JVal.str "old"), ("saldo", JVal.str "1.10")]]
        "JOHN DOE" ⟨200, [37, 80]⟩).1.listaMovimenti.length =
      ([[("saldo", JVal.str "2.50")],
        [("id", JVal.str "old"), ("saldo", JVal.str "1.10")]] : List Dict).length ∧
    (generate_pdf_report sampleState
        [[("saldo", JVal.str "2.50")], [("id", JVal.str "old"), ("saldo", JVal.str "1.10")]]
        "JOHN DOE" ⟨200, [37, 80]⟩).1.listaMovimenti.getD 1 [] =
      dset (dset (([[("saldo", JVal.str "2.50")],
          [("id", JVal.str "old"), ("saldo", JVal.str "1.10")]] : List Dict).getD 1 [])
        "checked" (JVal.bool true)) "id" (JVal.str (toString 1)) ∧
    dget ((generate_pdf_report sampleState
        [[("saldo", JVal.str "2.50")], [("id", JVal.str "old"), ("saldo", JVal.str "1.10")]]
        "JOHN DOE" ⟨200, [37, 80]⟩).1.listaMovimenti.getD 1 []) "checked" =
      some (JVal.bool true) ∧
    dget ((generate_pdf_report sampleState
        [[("saldo", JVal.str "2.50")], [("id", JVal.str "old"), ("saldo", JVal.str "1.10")]]
        "JOHN DOE" ⟨200, [37, 80]⟩).1.listaMovimenti.getD 1 []) "id" =
      some (JVal.str (toString 1)) ∧
    ∀ k2, k2 ≠ "checked" → k2 ≠ "id" →
      dget ((generate_pdf_report sampleState
          [[("saldo", JVal.str "2.50")], [("id", JVal.str "old"), ("saldo", JVal.str "1.10")]]
          "JOHN DOE" ⟨200, [37, 80]⟩).1.listaMovimenti.getD 1 []) k2 =
        dget (([[("saldo", JVal.str "2.50")],
          [("id", JVal.str "old"), ("saldo", JVal.str "1.10")]] : List Dict).getD 1 []) k2 :=
  c4_payload sampleState
    [[("saldo", JVal.str "2.50")], [("id", JVal.str "old"), ("saldo", JVal.str "1.10")]]
    "JOHN DOE" ⟨200, [37, 80]⟩ 1 (by decide)

/-- C5: `generate_pdf_report` never mutates its input records.  In the
reference semantics, every heap cell that existed before the
payload-building loop reads back unchanged after it — in particular no
input record acquires a `checked` or `id` field and no existing field is
altered; only the freshly allocated copies are written. -/
theorem c5_input_records_unchanged (h : Heap) (addrs : List Nat) (a : Nat)
    (ha : a < h.cells.length) :
    (genPdfLoop h 0 addrs).1.read a = h.read a :=
  genPdfLoop_frame addrs h 0 a ha

/-- Witness for C5 on a one-record heap. -/
theorem c5_input_records_unchanged_witness :
    (genPdfLoop ⟨[[("saldo", JVal.str "3.00")]]⟩ 0 [0]).1.read 0 =
      Heap.read ⟨[[("saldo", JVal.str "3.00")]]⟩ 0 :=
  c5_input_records_unchanged ⟨[[("saldo", JVal.str "3.00")]]⟩ [0] 0 (by decide)

/-- C10: when an input record already carries a `checked` or `id` field,
the corresponding payload copy has that field overwritten (to `True`,
respectively to the positional index as a string), while the original
record still reads exactly as before the call. -/
theorem c10_preexisting_overwritten (h : Heap) (addrs : List Nat) (i : Nat) (v : JVal)
    (hin : ∀ a ∈ addrs, a < h.cells.length) (hi : i < addrs.length)
    (hv : dget (h.read (addrs.getD i 0)) "checked" = some v ∨
      dget (h.read (addrs.getD i 0)) "id" = some v) :
    dget ((genPdfLoop h 0 addrs).1.read ((genPdfLoop h 0 addrs).2.getD i 0)) "checked" =
      some (JVal.bool true) ∧
    dget ((genPdfLoop h 0 addrs).1.read ((genPdfLoop h 0 addrs).2.getD i 0)) "id" =
      some (JVal.str (toString i)) ∧
    (genPdfLoop h 0 addrs).1.read (addrs.getD i 0) = h.read (addrs.getD i 0) := by
  have hc := genPdfLoop_copies addrs h 0 i hin hi
  rw [Nat.zero_add] at hc
  have hmem : addrs.getD i 0 ∈ addrs := by
    rw [List.getD_eq_getElem?_getD, List.getElem?_eq_getElem hi]
    simp only [Option.getD_some]
    exact List.getElem_mem hi
  refine ⟨?_, ?_, ?_⟩
  · rw [hc, dget_dset_ne _ _ _ _ (by decide), dget_dset_self]
  · rw [hc, dget_dset_self]
  · exact genPdfLoop_frame addrs h 0 _ (hin _ hmem)

/-- Witness for C10 on a record that already has `checked` and `id`
fields. -/
theorem c10_preexisting_overwritten_witness :
    dget ((genPdfLoop ⟨[[("checked", JVal.bool false), ("id", JVal.str "S9")]]⟩ 0 [0]).1.read
        ((genPdfLoop ⟨[[("checked", JVal.bool false), ("id", JVal.str "S9")]]⟩ 0 [0]).2.getD 0 0))
      "checked" = some (JVal.bool true) ∧
    dget ((genPdfLoop ⟨[[("checked", JVal.bool false), ("id", JVal.str "S9")]]⟩ 0 [0]).1.read
        ((genPdfLoop ⟨[[("checked", JVal.bool false), ("id", JVal.str "S9")]]⟩ 0 [0]).2.getD 0 0))
      "id" = some (JVal.str (toString 0)) ∧
    (genPdfLoop ⟨[[("checked", JVal.bool false), ("id", JVal.str "S9")]]⟩ 0 [0]).1.read
        (([0] : List Nat).getD 0 0) =
      Heap.read ⟨[[("checked", JVal.bool false), ("id", JVal.str "S9")]]⟩ (([0] : List Nat).getD 0 0) :=
  c10_preexisting_overwritten ⟨[[("checked", JVal.bool false), ("id", JVal.str "S9")]]⟩
    [0] 0 (JVal.bool false) (by decide) (by decide) (Or.inl (by decide))

/-- The HTTP response to the login POST: a status and the response
cookie jar. -/
structure LoginResponse where
  status : Nat
  cookies : List (String × String)
  deriving DecidableEq, Repr

/-- Cookie-jar lookup (`"name" in cookies` / `cookies["name"]`). -/
def cookieGet (cs : List (String × String)) (k : String) : Option String :=
  (cs.find? (fun p => p.1 == k)).map (fun p => p.2)

/-- `login`: posts the form-encoded credentials (transport abstracted as
the supplied response), raises on an HTTP error status
(`raise_for_status`), then returns `True` and stores both session
cookies iff `MRHSession` and `LastMRH_Session` are both present in the
response, otherwise returns `False` leaving the state untouched. -/
def login (st : ClientState) (resp : LoginResponse) : Except PyErr (ClientState × Bool) :=
  if 400 ≤ resp.status then .error .httpError
  else
    match cookieGet resp.cookies "MRHSession", cookieGet resp.cookies "LastMRH_Session" with
    | some m, some l =>
      .ok ({ st with mrh_session := some m, last_mrh_session := some l }, true)
    | _, _ => .ok (st, false)

/-- Decoded JSON body of the movements endpoint, as far as the client
reads it: the `listaMovimenti` key may be present or absent. -/
structure PageBody where
  listaMovimenti : Option (List Dict)
  deriving DecidableEq, Repr

/-- An HTTP response of the movements endpoint. -/
structure PageHttp where
  status : Nat
  body : PageBody
  deriving DecidableEq, Repr

/-- `fetch_movements`: an authenticated GET (headers, cookies and query
parameters are built from the state, which is only read); raises on an
HTTP error status, otherwise returns the decoded JSON body. -/
def fetch_movements (st : ClientState) (resp : PageHttp) : Except PyErr (ClientState × PageBody) :=
  if 400 ≤ resp.status then .error .httpError else .ok (st, resp.body)

/-- `response.get("listaMovimenti", [])` applied to a page response. -/
def pageMovs (resp : PageHttp) : List Dict :=
  resp.body.listaMovimenti.getD []

/-- `fetch_all_movements`, with the paging transport abstracted as a map
from requested offset to HTTP response (each request uses
`limit = batch_size`).  The fuel argument bounds the number of loop
iterations; `none` means the loop was still running after `fuel`
requests.  On termination it returns the final client state, the
accumulated movements, and the trace of requested offsets in order. -/
def fetch_all_movements (server : Nat → PageHttp) (batch_size : Nat) :
    ClientState → Nat → Nat → Option (Except PyErr (ClientState × List Dict × List Nat))
  | _, _, 0 => none
  | st, offset, fuel + 1 =>
    match fetch_movements st (server offset) with
    | .error err => some (.error err)
    | .ok (st1, body) =>
      let movements := body.listaMovimenti.getD []
      if movements.length = 0 then some (.ok (st1, [], [offset]))
      else if movements.length < batch_size then some (.ok (st1, movements, [offset]))
      else
        match fetch_all_movements server batch_size st1 (offset + batch_size) fuel with
        | none => none
        | some (.error err) => some (.error err)
        | some (.ok (st2, rest, tr)) =>
          some (.ok (st2, movements ++ rest, offset :: tr))

/-- `filter_movements_by_date` as the client method it is in the source: it
reads nothing from the session and assigns nothing, so the state is
passed through unchanged next to the pure filtering result. -/
def stFilterMovementsByDate (st : ClientState) (movs : List Dict) (s e : PyDate) :
    Except PyErr (ClientState × List Dict) :=
  (filter_movements_by_date s e movs).map (fun l => (st, l))

lemma fetch_movements_ok (st : ClientState) (resp : PageHttp) (st1 : ClientState)
    (body : PageBody) (h : fetch_movements st resp = .ok (st1, body)) :
    st1 = st ∧ body = resp.body := by
  unfold fetch_movements at h
  split at h
  · simp at h
  · simp at h
    exact ⟨h.1.symm, h.2.symm⟩

lemma fetch_all_step (server : Nat → PageHttp) (b : Nat) (st : ClientState) (o fuel : Nat) :
    fetch_all_movements server b st o (fuel + 1) =
      if 400 ≤ (server o).status then some (.error .httpError)
      else if (pageMovs (server o)).length = 0 then some (.ok (st, [], [o]))
      else if (pageMovs (server o)).length < b then some (.ok (st, pageMovs (server o), [o]))
      else
        match fetch_all_movements server b st (o + b) fuel with
        | none => none
        | some (.error err) => some (.error err)
        | some (.ok (st2, rest, tr)) => some (.ok (st2, pageMovs (server o) ++ rest, o :: tr)) := by
  simp only [fetch_all_movements, fetch_movements, pageMovs]
  by_cases hs : 400 ≤ (server o).status
  · rw [if_pos hs, if_pos hs]
  · rw [if_neg hs, if_neg hs]

lemma fetch_all_concat (server : Nat → PageHttp) (b : Nat) :
    ∀ (fuel o : Nat) (st st2 : ClientState) (out : List Dict) (tr : List Nat),
      fetch_all_movements server b st o fuel = some (.ok (st2, out, tr)) →
      out = (tr.map (fun off => pageMovs (server off))).flatten ∧ st2 = st := by
  intro fuel
  induction fuel with
  | zero =>
    intro o st st2 out tr h
    simp [fetch_all_movements] at h
  | succ f ih =>
    intro o st st2 out tr h
    rw [fetch_all_step] at h
    by_cases hs : 400 ≤ (server o).status
    · rw [if_pos hs] at h
      simp at h
    · rw [if_neg hs] at h
      by_cases h0 : (pageMovs (server o)).length = 0
      · rw [if_pos h0] at h
        simp at h
        obtain ⟨hst, hout, htr⟩ := h
        subst hout
        subst htr
        exact ⟨by simp [List.length_eq_zero.mp h0], hst.symm⟩
      · rw [if_neg h0] at h
        by_cases hshort : (pageMovs (server o)).length < b
        · rw [if_pos hshort] at h
          simp at h
          obtain ⟨hst, hout, htr⟩ := h
          subst hout
          subst htr
          exact ⟨by simp, hst.symm⟩
        · rw [if_neg hshort] at h
          rcases hr : fetch_all_movements server b st (o + b) f with _ | r <;> rw [hr] at h
          · simp at h
          · rcases r with err2 | ⟨st3, rest, tr3⟩
            · simp at h
            · simp at h
              obtain ⟨hst, hout, htr⟩ := h
              obtain ⟨hrest, hst3⟩ := ih (o + b) st st3 rest tr3 hr
              subst hout
              subst htr
              exact ⟨by simp [hrest], by rw [← hst, hst3]⟩

lemma fetch_all_terminates_at (server : Nat → PageHttp) (b : Nat) (hb : 1 ≤ b) :
    ∀ (K o : Nat) (st : ClientState),
      (∀ j, j < K → b ≤ (pageMovs (server (o + j * b))).length) →
      (∀ j, j ≤ K → (server (o + j * b)).status < 400) →
      (pageMovs (server (o + K * b))).length < b →
      ∃ st2 out, fetch_all_movements server b st o (K + 1) =
        some (.ok (st2, out, (List.range (K + 1)).map (fun j => o + j * b))) := by
  intro K
  induction K with
  | zero =>
    intro o st _ hok hshort
    have hs : ¬ 400 ≤ (server o).status := by
      have := hok 0 (Nat.le_refl 0)
      simp at this
      omega
    rw [fetch_all_step, if_neg hs]
    simp only [Nat.zero_mul, Nat.add_zero] at hshort
    by_cases h0 : (pageMovs (server o)).length = 0
    · rw [if_pos h0]
      exact ⟨st, [], by simp [List.range_succ]⟩
    · rw [if_neg h0, if_pos hshort]
      exact ⟨st, pageMovs (server o), by simp [List.range_succ]⟩
  | succ K ih =>
    intro o st hfull hok hshort
    have hs : ¬ 400 ≤ (server o).status := by
      have := hok 0 (Nat.zero_le _)
      simp at this
      omega
    have hfull0 : b ≤ (pageMovs (server o)).length := by
      have := hfull 0 (Nat.succ_pos K)
      simpa using this
    rw [fetch_all_step, if_neg hs, if_neg (by omega), if_neg (by omega)]
    obtain ⟨st2, out, hrun⟩ := ih (o + b) st
      (fun j hj => by
        have := hfull (j + 1) (Nat.succ_lt_succ hj)
        have harith : o + (j + 1) * b = o + b + j * b := by ring
        rw [harith] at this
        exact this)
      (fun j hj => by
        have := hok (j + 1) (Nat.succ_le_succ hj)
        have harith : o + (j + 1) * b = o + b + j * b := by ring
        rw [harith] at this
        exact this)
      (by
        have harith : o + (K + 1) * b = o + b + K * b := by ring
        rw [harith] at hshort
        exact hshort)
    rw [hrun]
    refine ⟨st2, pageMovs (server o) ++ out, ?_⟩
    have htr : (List.range (K + 2)).map (fun j => o + j * b) =
        o :: (List.range (K + 1)).map (fun j => o + b + j * b) := by
      rw [List.range_succ_eq_map, List.map_cons, List.map_map]
      simp only [Nat.zero_mul, Nat.add_zero]
      congr 1
      apply List.map_congr_left
      intro j _
      simp only [Function.comp_apply, Nat.succ_mul]
      ring
    rw [htr]

lemma fetch_all_no_stop_before (server : Nat → PageHttp) (b : Nat) (hb : 1 ≤ b) :
    ∀ (K o : Nat) (st : ClientState),
      (∀ j, j < K → b ≤ (pageMovs (server (o + j * b))).length) →
      (∀ j, j < K → (server (o + j * b)).status < 400) →
      fetch_all_movements server b st o K = none := by
  intro K
  induction K with
  | zero => intro o st _ _; rfl
  | succ K ih =>
    intro o st hfull hok
    have hs : ¬ 400 ≤ (server o).status := by
      have := hok 0 (Nat.succ_pos K)
      simp at this
      omega
    have hfull0 : b ≤ (pageMovs (server o)).length := by
      have := hfull 0 (Nat.succ_pos K)
      simpa using this
    rw [fetch_all_step, if_neg hs, if_neg (by omega), if_neg (by omega)]
    rw [ih (o + b) st
      (fun j hj => by
        have := hfull (j + 1) (Nat.succ_lt_succ hj)
        have harith : o + (j + 1) * b = o + b + j * b := by ring
        rw [harith] at this
        exact this)
      (fun j hj => by
        have := hok (j + 1) (Nat.succ_lt_succ hj)
        have harith : o + (j + 1) * b = o + b + j * b := by ring
        rw [harith] at this
        exact this)]

/-- C3: for every terminating run of `fetch_all_movements`, the returned
list is the in-order concatenation of the `listaMovimenti` arrays of
all pages fetched (the trace records the requested offsets, the final
short page included), so its length is the sum of the per-page record
counts. -/
theorem c3_aggregation (server : Nat → PageHttp) (b fuel o : Nat)
    (st st2 : ClientState) (out : List Dict) (tr : List Nat)
    (h : fetch_all_movements server b st o fuel = some (.ok (st2, out, tr))) :
    out = (tr.map (fun off => pageMovs (server off))).flatten ∧
    out.length = (tr.map (fun off => (pageMovs (server off)).length)).sum := by
  obtain ⟨hout, _⟩ := fetch_all_concat server b fuel o st st2 out tr h
  refine ⟨hout, ?_⟩
  rw [hout, List.length_flatten, List.map_map]
  rfl

/-- Witness for C3: batch size 2, a full first page at offset 1 and a
short second page at offset 3. -/
theorem c3_aggregation_witness :
    ([[("n", JVal.int 1)], [("n", JVal.int 2)], [("n", JVal.int 3)]] : List Dict) =
      (([1, 3] : List Nat).map (fun off => pageMovs
        (if off = 1 then ⟨200, ⟨some [[("n", JVal.int 1)], [("n", JVal.int 2)]]⟩⟩
         else ⟨200, ⟨some [[("n", JVal.int 3)]]⟩⟩))).flatten ∧
    ([[("n", JVal.int 1)], [("n", JVal.int 2)], [("n", JVal.int 3)]] : List Dict).length =
      (([1, 3] : List Nat).map (fun off => (pageMovs
        (if off = 1 then ⟨200, ⟨some [[("n", JVal.int 1)], [("n", JVal.int 2)]]⟩⟩
         else ⟨200, ⟨some [[("n", JVal.int 3)]]⟩⟩)).length)).sum :=
  c3_aggregation
    (fun off => if off = 1 then ⟨200, ⟨some [[("n", JVal.int 1)], [("n", JVal.int 2)]]⟩⟩
      else ⟨200, ⟨some [[("n", JVal.int 3)]]⟩⟩)
    2 2 1 sampleState sampleState
    [[("n", JVal.int 1)], [("n", JVal.int 2)], [("n", JVal.int 3)]] [1, 3] rfl

/-- C2: with batch size `b ≥ 1` and `K` the index of the first short or
empty page along the offset sequence `1, 1+b, 1+2b, ...` (earlier pages
are full, every page up to `K` answers without an HTTP error; since
`b ≥ 1` an empty page is a special case of a short one), the pagination
loop of `fetch_all_movements` issues requests at exactly the offsets
`1, 1+b, ..., 1+K*b` and stops there: it terminates within `K+1`
iterations and not within `K`. -/
theorem c2_pagination (server : Nat → PageHttp) (b K : Nat) (st : ClientState)
    (hb : 1 ≤ b)
    (hok : ∀ j, j ≤ K → (server (1 + j * b)).status < 400)
    (hfull : ∀ j, j < K → b ≤ (pageMovs (server (1 + j * b))).length)
    (hshort : (pageMovs (server (1 + K * b))).length < b) :
    (∃ st2 out, fetch_all_movements server b st 1 (K + 1) =
      some (.ok (st2, out, (List.range (K + 1)).map (fun j => 1 + j * b)))) ∧
    fetch_all_movements server b st 1 K = none :=
  ⟨fetch_all_terminates_at server b hb K 1 st hfull hok hshort,
   fetch_all_no_stop_before server b hb K 1 st hfull
     (fun j hj => hok j (Nat.le_of_lt hj))⟩

/-- Witness for C2: batch size 2, full page at offset 1, short page at
offset 3 (`K = 1`). -/
theorem c2_pagination_witness :
    (∃ st2 out, fetch_all_movements
      (fun off => if off = 1 then ⟨200, ⟨some [[("n", JVal.int 1)], [("n", JVal.int 2)]]⟩⟩
        else ⟨200, ⟨some [[("n", JVal.int 3)]]⟩⟩)
      2 sampleState 1 (1 + 1) =
      some (.ok (st2, out, (List.range (1 + 1)).map (fun j => 1 + j * 2)))) ∧
    fetch_all_movements
      (fun off => if off = 1 then ⟨200, ⟨some [[("n", JVal.int 1)], [("n", JVal.int 2)]]⟩⟩
        else ⟨200, ⟨some [[("n", JVal.int 3)]]⟩⟩)
      2 sampleState 1 1 = none :=
  c2_pagination
    (fun off => if off = 1 then ⟨200, ⟨some [[("n", JVal.int 1)], [("n", JVal.int 2)]]⟩⟩
      else ⟨200, ⟨some [[("n", JVal.int 3)]]⟩⟩)
    2 1 sampleState (by decide) (by decide) (by decide) (by decide)

/-- C6: assuming the login HTTP call itself succeeded (2xx), `login`
returns normally (it does not raise) and its boolean result is `true`
exactly when both the `MRHSession` and the `LastMRH_Session` cookies are
present in the response; with either cookie missing it returns `false`. -/
theorem c6_login_cookies (st : ClientState) (resp : LoginResponse)
    (h2xx : 200 ≤ resp.status ∧ resp.status < 300) :
    ∃ st2 r, login st resp = .ok (st2, r) ∧
      (r = true ↔ (cookieGet resp.cookies "MRHSession").isSome ∧
        (cookieGet resp.cookies "LastMRH_Session").isSome) := by
  unfold login
  rw [if_neg (by omega)]
  rcases hm : cookieGet resp.cookies "MRHSession" with _ | m <;>
    rcases hl : cookieGet resp.cookies "LastMRH_Session" with _ | l
  · exact ⟨st, false, rfl, by simp⟩
  · exact ⟨st, false, rfl, by simp [hm]⟩
  · exact ⟨st, false, rfl, by simp [hl]⟩
  · exact ⟨_, true, rfl, by simp⟩

/-- Witness for C6: a 2xx response carrying only `MRHSession` yields
`false`. -/
theorem c6_login_cookies_witness :
    ∃ st2 r, login sampleState ⟨200, [("MRHSession", "abc")]⟩ = .ok (st2, r) ∧
      (r = true ↔ (cookieGet [("MRHSession", "abc")] "MRHSession").isSome ∧
        (cookieGet [("MRHSession", "abc")] "LastMRH_Session").isSome) :=
  c6_login_cookies sampleState ⟨200, [("MRHSession", "abc")]⟩ ⟨by decide, by decide⟩

/-- C8: the session state is mutated only by a successful login.
`fetch_movements`, `fetch_all_movements`, `filter_movements_by_date` and
`generate_pdf_report` return the session unchanged whenever they return;
a `login` that returns `false` leaves the two cookie values unchanged;
and even a successful `login` changes nothing but the two cookie
fields. -/
theorem c8_session_static (st st1 st2 st3 st4 st5 st6 : ClientState)
    (respF : PageHttp) (page : PageBody) (server : Nat → PageHttp) (b fuel : Nat)
    (out : List Dict) (tr : List Nat) (movs movs2 l : List Dict) (s e : PyDate)
    (intestatario : String) (resp : BytesResponse) (content : List Nat)
    (lresp lresp2 : LoginResponse)
    (h1 : fetch_movements st respF = .ok (st1, page))
    (h2 : fetch_all_movements server b st 1 fuel = some (.ok (st2, out, tr)))
    (h3 : stFilterMovementsByDate st movs s e = .ok (st3, l))
    (h4 : (generate_pdf_report st movs2 intestatario resp).2 = .ok (st4, content))
    (h5 : login st lresp = .ok (st5, false))
    (h6 : login st lresp2 = .ok (st6, true)) :
    st1 = st ∧ st2 = st ∧ st3 = st ∧ st4 = st ∧
    (st5.mrh_session = st.mrh_session ∧ st5.last_mrh_session = st.last_mrh_session) ∧
    (st6.contract_id = st.contract_id ∧ st6.session_id = st.session_id ∧
      st6.movements_client_id = st.movements_client_id ∧
      st6.movements_client_secret = st.movements_client_secret ∧
      st6.pdf_client_id = st.pdf_client_id ∧
      st6.pdf_client_secret = st.pdf_client_secret) := by
  refine ⟨(fetch_movements_ok st respF st1 page h1).1, ?_, ?_, ?_, ?_, ?_⟩
  · exact (fetch_all_concat server b fuel 1 st st2 out tr h2).2
  · unfold stFilterMovementsByDate at h3
    rcases hr : filter_movements_by_date s e movs with err | l2 <;> rw [hr] at h3 <;>
      simp [Except.map] at h3
    exact h3.1.symm
  · unfold generate_pdf_report at h4
    split at h4
    · simp at h4
    · simp at h4
      exact h4.1.symm
  · unfold login at h5
    split at h5
    · simp at h5
    · split at h5
      · simp at h5
      · simp at h5
        subst h5
        exact ⟨rfl, rfl⟩
  · unfold login at h6
    split at h6
    · simp at h6
    · split at h6
      · simp at h6
        subst h6
        exact ⟨rfl, rfl, rfl, rfl, rfl, rfl⟩
      · simp at h6

/-- The sample session after a successful login stored both cookies. -/
def sampleLoggedIn : ClientState :=
  { sampleState with mrh_session := some "c1", last_mrh_session := some "c2" }

/-- Witness for C8: every call is run against a trivial transport
(empty page, cookie-less login, cookie-carrying login) from the sample
session. -/
theorem c8_session_static_witness :
    sampleState = sampleState ∧ sampleState = sampleState ∧
    sampleState = sampleState ∧ sampleState = sampleState ∧
    (sampleState.mrh_session = sampleState.mrh_session ∧
      sampleState.last_mrh_session = sampleState.last_mrh_session) ∧
    (sampleLoggedIn.contract_id = sampleState.contract_id ∧
      sampleLoggedIn.session_id = sampleState.session_id ∧
      sampleLoggedIn.movements_client_id = sampleState.movements_client_id ∧
      sampleLoggedIn.movements_client_secret = sampleState.movements_client_secret ∧
      sampleLoggedIn.pdf_client_id = sampleState.pdf_client_id ∧
      sampleLoggedIn.pdf_client_secret = sampleState.pdf_client_secret) :=
  c8_session_static sampleState sampleState sampleState sampleState sampleState sampleState
    sampleLoggedIn
    ⟨200, ⟨some []⟩⟩ ⟨some []⟩ (fun _ => ⟨200, ⟨some []⟩⟩) 100 1 [] [1] [] [] []
    ⟨2024, 1, 1⟩ ⟨2024, 12, 31⟩ "JOHN DOE" ⟨200, [1, 2]⟩ [1, 2]
    ⟨200, []⟩ ⟨200, [("MRHSession", "c1"), ("LastMRH_Session", "c2")]⟩
    rfl rfl rfl rfl rfl rfl
